import Mathlib

/-!
Verification of the query understanding and reasoning core of EduDocAI.

This file gives a shallow embedding, in Lean 4, of the routing chain
(`src/chains/routing_chain.py`), the agent tools
(`src/agents/tools.py`: calculator and schedule-conflict detector) and the
agent constructor and invocation wrapper (`src/agents/agent.py`), and proves
or refutes the frozen behavioural claims about them.

Python strings are embedded as Lean `String` / `List Char`; Python's `re`
searches used by the code are embedded as hand-written deterministic matchers
implementing the leftmost-search semantics of the concrete patterns that
appear in the source; Python exceptions are embedded as `Except` values or as
explicit outcome constructors.
-/

namespace EduDoc

/-! ## String primitives -/

/-- `leadsL n h`: the list `n` is an initial segment of `h`
(embeds the prefix test underlying Python's `str.startswith`). -/
def leadsL : List Char → List Char → Bool
  | [], _ => true
  | _ :: _, [] => false
  | a :: as, b :: bs => a == b && leadsL as bs

/-- `occursL n h`: the list `n` occurs contiguously somewhere in `h`
(embeds Python's `needle in haystack` substring test). -/
def occursL (n : List Char) : List Char → Bool
  | [] => leadsL n []
  | c :: cs => leadsL n (c :: cs) || occursL n cs

/-- `containsSub hay needle`: substring test on strings
(Python `needle in hay`). -/
def containsSub (hay needle : String) : Bool :=
  occursL needle.data hay.data

/-- ASCII lowercasing of a string (embeds Python `str.lower()` on the
ASCII text this system handles). -/
def lowerStr (s : String) : String :=
  ⟨s.data.map Char.toLower⟩

/-- The whitespace characters recognised by Python's `str.strip()` and the
regex class `\s` (space, tab, newline, carriage return, vertical tab,
form feed). -/
def isPySpace (c : Char) : Bool :=
  c == ' ' || c == '\t' || c == '\n' || c == '\r' || c == '\x0b' || c == '\x0c'

/-- Python `str.strip()`: drop leading and trailing whitespace. -/
def pyStrip (s : String) : String :=
  ⟨((s.data.dropWhile isPySpace).reverse.dropWhile isPySpace).reverse⟩

/-- Split a list of characters at every newline
(embeds Python `str.split("\n")`). -/
def splitNl : List Char → List (List Char)
  | [] => [[]]
  | c :: cs =>
    let rest := splitNl cs
    if c == '\n' then [] :: rest
    else
      match rest with
      | [] => [[c]]
      | r :: rs => (c :: r) :: rs

/-- Split a string into its lines at `\n` (Python `context.split('\n')`). -/
def splitLines (s : String) : List String :=
  (splitNl s.data).map fun l => ⟨l⟩

/-! ## Query router (`src/chains/routing_chain.py`) -/

/-- The four routing categories (`QueryType` in `routing_chain.py`). -/
inductive QueryType where
  | simple
  | crossDocument
  | aggregation
  | complex
deriving DecidableEq, Repr

/-- The wire value of each query type (`QueryType(str, Enum)` values in
`routing_chain.py`). -/
def QueryType.value : QueryType → String
  | .simple => "simple"
  | .crossDocument => "cross_document"
  | .aggregation => "aggregation"
  | .complex => "complex"

/-- A routing decision (`QueryRoute` in `routing_chain.py`): a query type, a
reasoning string, and an optional metadata filter of string pairs. -/
structure QueryRoute where
  queryType : QueryType
  reasoning : String
  metadataFilter : Option (List (String × String))
deriving DecidableEq, Repr

/-- Aggregation cue keywords scanned by `QueryRouter._heuristic_route`. -/
def aggCues : List String := ["how many", "count", "total", "number of"]

/-- Cross-document (breadth) cue keywords scanned by
`QueryRouter._heuristic_route`. -/
def breadthCues : List String := ["all", "which students", "list", "show me"]

/-- Tool-use cue keywords scanned by `QueryRouter._heuristic_route`. -/
def complexCues : List String := ["conflict", "generate", "export", "csv"]

/-- `any(keyword in query_lower for keyword in cues)`. -/
def containsAny (ql : String) (cues : List String) : Bool :=
  cues.any fun k => containsSub ql k

/-- `QueryRouter._heuristic_route`: lowercase the query, then check
aggregation cues, then breadth cues, then tool-use cues, defaulting to
Simple. -/
def heuristicRoute (query : String) : QueryRoute :=
  let ql := lowerStr query
  if containsAny ql aggCues then
    ⟨.aggregation, "Query contains aggregation keywords", none⟩
  else if containsAny ql breadthCues then
    ⟨.crossDocument, "Query likely requires multiple documents", none⟩
  else if containsAny ql complexCues then
    ⟨.complex, "Query requires complex reasoning or tools", none⟩
  else
    ⟨.simple, "Simple factual query", none⟩

/-- `QueryRouter._map_query_type`: keyword-based mapping of the classifier's
type string (already stripped and lowercased by the caller) to a
`QueryType`. -/
def mapQueryType : Option String → QueryType
  | none => .simple
  | some s =>
    let t := pyStrip (lowerStr s)
    if containsSub t "cross" || containsSub t "multi" then .crossDocument
    else if containsSub t "aggregation" || containsSub t "count" then .aggregation
    else if containsSub t "complex" then .complex
    else .simple

/-- Drop everything up to and including the first `:`
(embeds `line.split(":", 1)[1]` on a line known to contain a colon). -/
def afterFirstColon : List Char → List Char
  | [] => []
  | c :: cs => if c == ':' then cs else afterFirstColon cs

/-- Python `str.strip('"\'')`: drop leading and trailing quote characters. -/
def stripQuotes (s : String) : String :=
  let isQ : Char → Bool := fun c => c == '"' || c == '\''
  ⟨((s.data.dropWhile isQ).reverse.dropWhile isQ).reverse⟩

/-- `QueryRouter._parse_filter_string`, modelled for the `key: value` form.
The Python code first attempts `json.loads` when the string contains a
brace; that branch delegates to the external json library and is outside
the modelled fragment, so brace-bearing strings are modelled through the
same `key: value` fallback the Python code uses when json parsing fails.
No claim depends on the filter contents. -/
def parseFilterString (s : String) : Option (List (String × String)) :=
  if containsSub s ":" then
    let k := stripQuotes (pyStrip ⟨(s.data.takeWhile fun c => !(c == ':'))⟩)
    let v := stripQuotes (pyStrip ⟨afterFirstColon s.data⟩)
    some [(k, v)]
  else
    none

/-- One step of the line loop in `QueryRouter._parse_routing_response`:
recognise `Type:` / `Reasoning:` / `Filter:` prefixes case-insensitively
(later lines overwrite earlier ones). The accumulator holds
(type string, reasoning, filter). -/
def parseRespStep (st : Option String × Option String × Option (List (String × String)))
    (line : String) : Option String × Option String × Option (List (String × String)) :=
  let l := pyStrip line
  let ll := lowerStr l
  if leadsL "type:".data ll.data then
    (some (lowerStr (pyStrip ⟨afterFirstColon l.data⟩)), st.2.1, st.2.2)
  else if leadsL "reasoning:".data ll.data then
    (st.1, some (pyStrip ⟨afterFirstColon l.data⟩), st.2.2)
  else if leadsL "filter:".data ll.data then
    let fs := pyStrip ⟨afterFirstColon l.data⟩
    if fs ≠ "" && lowerStr fs ≠ "none" then
      (st.1, st.2.1, parseFilterString fs)
    else
      (st.1, st.2.1, st.2.2)
  else
    st

/-- `QueryRouter._parse_routing_response` on the non-raising path: split the
stripped reply into lines, fold the field recognition over them, map the
type string, and default the reasoning when absent or empty. -/
def parseRoutingResponse (response : String) : QueryRoute :=
  let st := (splitLines (pyStrip response)).foldl parseRespStep (none, none, none)
  let qt := mapQueryType st.1
  let dflt := "Classified as " ++ qt.value ++ " query"
  let reasoning :=
    match st.2.1 with
    | none => dflt
    | some r => if r = "" then dflt else r
  ⟨qt, reasoning, st.2.2⟩

/-- Outcome of the classifier call inside `QueryRouter.route_query`:
either `self.routing_chain.invoke` raised (`unavailable`), or it returned a
reply that `_parse_routing_response` handles without raising (`reply`), or
it returned a reply whose parsing machinery raised — e.g. a pydantic
validation failure on a malformed filter value — in which case the inner
`except` of `_parse_routing_response` runs the keyword heuristic
(`malformedReply`). The raising condition lives in external library code,
so it is carried as an explicit outcome constructor. -/
inductive ClassifierOutcome where
  | unavailable (err : String)
  | reply (text : String)
  | malformedReply (text : String)

/-- The primary path of `QueryRouter.route_query`: raises exactly when the
chain invocation raises; a reply is parsed, with the heuristic covering the
parse-raise case inside `_parse_routing_response`. -/
def routePrimary : ClassifierOutcome → String → Except String QueryRoute
  | .unavailable e, _ => .error e
  | .reply t, _ => .ok (parseRoutingResponse t)
  | .malformedReply _, q => .ok (heuristicRoute q)

/-- The `QueryRoute` produced by the outer `except` branch of
`QueryRouter.route_query`. -/
def fallbackSimpleRoute : QueryRoute :=
  ⟨.simple, "Fallback due to routing error", none⟩

/-- `QueryRouter.route_query` with the exception made visible: the outer
`try/except` converts any raise of the primary path into the Simple
fallback, so the result is always `Except.ok`. -/
def routeQueryE (o : ClassifierOutcome) (q : String) : Except String QueryRoute :=
  match routePrimary o q with
  | .ok r => .ok r
  | .error _ => .ok fallbackSimpleRoute

/-- `QueryRouter.route_query` as the total function it behaves as. -/
def routeQuery (o : ClassifierOutcome) (q : String) : QueryRoute :=
  match routePrimary o q with
  | .ok r => r
  | .error _ => fallbackSimpleRoute

/-! ## Calculator tool (`src/agents/tools.py`, `calculator`) -/

/-- The character allow-list of `calculator`:
`set('0123456789+-*/()., ')`. -/
def allowedChars : List Char := "0123456789+-*/()., ".data

/-- An exact fraction with positive denominator, kept unreduced. Python
floats are embedded as exact fractions; every claim touches only values on
which exact and IEEE arithmetic agree. -/
structure Frac where
  num : Int
  den : Int
deriving DecidableEq, Repr

/-- Numeric values of Python arithmetic: ints and floats. -/
inductive PyVal where
  | vint : Int → PyVal
  | vfloat : Frac → PyVal
deriving DecidableEq, Repr

/-- The exceptions `calculator` distinguishes when evaluating an
allowed-charset expression. -/
inductive PyErr where
  | zeroDiv
  | syntaxErr
deriving DecidableEq, Repr

/-- Tokens of the arithmetic fragment accepted by the allow-list. -/
inductive Tok where
  | num : PyVal → Tok
  | plus
  | minus
  | star
  | slash
  | lparen
  | rparen
  | comma
deriving DecidableEq, Repr

/-- Numeric value of a digit run. -/
def digitsVal (ds : List Char) : Nat :=
  ds.foldl (fun a c => a * 10 + (c.toNat - 48)) 0

/-- Value of a float literal with integer digits `ip` and fraction digits
`fp`. -/
def floatVal (ip fp : List Char) : Frac :=
  ⟨(digitsVal ip : Int) * 10 ^ fp.length + (digitsVal fp : Int), 10 ^ fp.length⟩

/-- Tokenizer for the arithmetic fragment (fuelled; each step consumes at
least one character, and callers pass ample fuel). A lone `.` with no
digits on either side is a syntax error, as in Python. -/
def lexArith : Nat → List Char → Except PyErr (List Tok)
  | 0, _ => .error .syntaxErr
  | _ + 1, [] => .ok []
  | fuel + 1, c :: rest =>
    if isPySpace c then lexArith fuel rest
    else if c == '+' then (lexArith fuel rest).map (Tok.plus :: ·)
    else if c == '-' then (lexArith fuel rest).map (Tok.minus :: ·)
    else if c == '*' then (lexArith fuel rest).map (Tok.star :: ·)
    else if c == '/' then (lexArith fuel rest).map (Tok.slash :: ·)
    else if c == '(' then (lexArith fuel rest).map (Tok.lparen :: ·)
    else if c == ')' then (lexArith fuel rest).map (Tok.rparen :: ·)
    else if c == ',' then (lexArith fuel rest).map (Tok.comma :: ·)
    else if c.isDigit || c == '.' then
      let cs := c :: rest
      let ip := cs.takeWhile Char.isDigit
      let r1 := cs.dropWhile Char.isDigit
      match r1 with
      | '.' :: r2 =>
        let fp := r2.takeWhile Char.isDigit
        let r3 := r2.dropWhile Char.isDigit
        if ip.isEmpty && fp.isEmpty then .error .syntaxErr
        else (lexArith fuel r3).map (Tok.num (.vfloat (floatVal ip fp)) :: ·)
      | _ => (lexArith fuel r1).map (Tok.num (.vint (digitsVal ip)) :: ·)
    else .error .syntaxErr

/-- Abstract syntax of the arithmetic fragment. -/
inductive AExpr where
  | lit : PyVal → AExpr
  | neg : AExpr → AExpr
  | pos : AExpr → AExpr
  | add : AExpr → AExpr → AExpr
  | sub : AExpr → AExpr → AExpr
  | mul : AExpr → AExpr → AExpr
  | div : AExpr → AExpr → AExpr
deriving DecidableEq, Repr

mutual

/-- `expr := term (('+'|'-') term)*` (fuelled recursive descent). -/
def parseExprA : Nat → List Tok → Except PyErr (AExpr × List Tok)
  | 0, _ => .error .syntaxErr
  | fuel + 1, ts => do
    let (t, r) ← parseTermA fuel ts
    parseExprTail fuel t r

/-- Left-associated tail of additive operators. -/
def parseExprTail : Nat → AExpr → List Tok → Except PyErr (AExpr × List Tok)
  | 0, _, _ => .error .syntaxErr
  | fuel + 1, acc, ts =>
    match ts with
    | .plus :: r => do
      let (t, r2) ← parseTermA fuel r
      parseExprTail fuel (.add acc t) r2
    | .minus :: r => do
      let (t, r2) ← parseTermA fuel r
      parseExprTail fuel (.sub acc t) r2
    | _ => .ok (acc, ts)

/-- `term := factor (('*'|'/') factor)*`. -/
def parseTermA : Nat → List Tok → Except PyErr (AExpr × List Tok)
  | 0, _ => .error .syntaxErr
  | fuel + 1, ts => do
    let (f, r) ← parseFactorA fuel ts
    parseTermTail fuel f r

/-- Left-associated tail of multiplicative operators. -/
def parseTermTail : Nat → AExpr → List Tok → Except PyErr (AExpr × List Tok)
  | 0, _, _ => .error .syntaxErr
  | fuel + 1, acc, ts =>
    match ts with
    | .star :: r => do
      let (f, r2) ← parseFactorA fuel r
      parseTermTail fuel (.mul acc f) r2
    | .slash :: r => do
      let (f, r2) ← parseFactorA fuel r
      parseTermTail fuel (.div acc f) r2
    | _ => .ok (acc, ts)

/-- `factor := ('+'|'-') factor | number | '(' expr ')'`. -/
def parseFactorA : Nat → List Tok → Except PyErr (AExpr × List Tok)
  | 0, _ => .error .syntaxErr
  | fuel + 1, ts =>
    match ts with
    | .plus :: r => (parseFactorA fuel r).map fun (e, r2) => (.pos e, r2)
    | .minus :: r => (parseFactorA fuel r).map fun (e, r2) => (.neg e, r2)
    | .num v :: r => .ok (.lit v, r)
    | .lparen :: r => do
      let (e, r2) ← parseExprA fuel r
      match r2 with
      | .rparen :: r3 => .ok (e, r3)
      | _ => .error .syntaxErr
    | _ => .error .syntaxErr

end

/-- The fraction value of a Python number. -/
def PyVal.toFrac : PyVal → Frac
  | .vint n => ⟨n, 1⟩
  | .vfloat f => f

/-- Exact fraction addition (denominators stay positive). -/
def addF (a b : Frac) : Frac :=
  ⟨a.num * b.den + b.num * a.den, a.den * b.den⟩

/-- Exact fraction subtraction. -/
def subF (a b : Frac) : Frac :=
  ⟨a.num * b.den - b.num * a.den, a.den * b.den⟩

/-- Exact fraction multiplication. -/
def mulF (a b : Frac) : Frac :=
  ⟨a.num * b.num, a.den * b.den⟩

/-- Exact fraction division (caller guards a zero divisor); the sign is
normalised onto the numerator. -/
def divF (a b : Frac) : Frac :=
  let n := a.num * b.den
  let d := a.den * b.num
  if d < 0 then ⟨-n, -d⟩ else ⟨n, d⟩

/-- Is a Python number zero? -/
def isZeroV : PyVal → Bool
  | .vint n => n == 0
  | .vfloat f => f.num == 0

/-- Python `+`: int when both operands are ints, float otherwise. -/
def addV : PyVal → PyVal → PyVal
  | .vint a, .vint b => .vint (a + b)
  | a, b => .vfloat (addF a.toFrac b.toFrac)

/-- Python binary `-`. -/
def subV : PyVal → PyVal → PyVal
  | .vint a, .vint b => .vint (a - b)
  | a, b => .vfloat (subF a.toFrac b.toFrac)

/-- Python `*`. -/
def mulV : PyVal → PyVal → PyVal
  | .vint a, .vint b => .vint (a * b)
  | a, b => .vfloat (mulF a.toFrac b.toFrac)

/-- Python unary `-`. -/
def negV : PyVal → PyVal
  | .vint n => .vint (-n)
  | .vfloat f => .vfloat ⟨-f.num, f.den⟩

/-- Evaluation of the arithmetic fragment; `/` is Python true division
(always a float) and raises `ZeroDivisionError` on a zero divisor. -/
def evalA : AExpr → Except PyErr PyVal
  | .lit v => .ok v
  | .neg e => (evalA e).map negV
  | .pos e => evalA e
  | .add e1 e2 => do
    let v1 ← evalA e1
    let v2 ← evalA e2
    .ok (addV v1 v2)
  | .sub e1 e2 => do
    let v1 ← evalA e1
    let v2 ← evalA e2
    .ok (subV v1 v2)
  | .mul e1 e2 => do
    let v1 ← evalA e1
    let v2 ← evalA e2
    .ok (mulV v1 v2)
  | .div e1 e2 => do
    let v1 ← evalA e1
    let v2 ← evalA e2
    if isZeroV v2 then .error .zeroDiv
    else .ok (.vfloat (divF v1.toFrac v2.toFrac))

/-- Python `eval` on the arithmetic fragment: compile (lex + parse) first —
so syntax errors precede any runtime division error, as in Python — then
evaluate. -/
def pyEval (s : String) : Except PyErr PyVal := do
  let toks ← lexArith (s.data.length + 1) s.data
  if toks.isEmpty then .error .syntaxErr
  else
    let (e, rest) ← parseExprA (10 * (toks.length + 1)) toks
    if rest.isEmpty then evalA e else .error .syntaxErr

/-- Left-pad a string with zeros to length `k`. -/
def padZeros (s : String) (k : Nat) : String :=
  ⟨List.replicate (k - s.data.length) '0' ++ s.data⟩

/-- Python `str` of a number: ints print as decimal integers; integral
floats print with a trailing `.0`; terminating decimals print their exact
digits with the smallest number of fraction places (matching CPython's
shortest round-trip repr on the short decimals this system computes).
Non-terminating decimals are outside the modelled fragment. -/
def renderVal : PyVal → String
  | .vint n => toString n
  | .vfloat f =>
    if f.num % f.den == 0 then toString (f.num / f.den) ++ ".0"
    else
      let nA := f.num.natAbs
      let dA := f.den.natAbs
      match (List.range 41).find? (fun k => nA * 10 ^ k % dA == 0) with
      | some k =>
        let m := nA * 10 ^ k / dA
        (if f.num < 0 then "-" else "")
          ++ toString (m / 10 ^ k) ++ "." ++ padZeros (toString (m % 10 ^ k)) k
      | none => toString f.num ++ "/" ++ toString f.den

/-- The rejection message of `calculator` for characters outside the
allow-list. -/
def invalidCharsMsg : String :=
  "Error: Invalid characters in expression. Only numbers and operators (+, -, *, /) are allowed."

/-- `calculator` from `src/agents/tools.py`: strip the expression, reject it
outright when any character is outside the allow-list, then evaluate,
converting `ZeroDivisionError` and `SyntaxError` to their error strings.
Python's `eval` is embedded by `pyEval` (see its doc comment for the
modelled fragment). -/
def calculator (expression : String) : String :=
  let e := pyStrip expression
  if e.data.all (fun c => allowedChars.contains c) then
    match pyEval e with
    | .ok v => renderVal v
    | .error .zeroDiv => "Error: Division by zero"
    | .error .syntaxErr => "Error: Invalid mathematical expression: " ++ e
  else
    invalidCharsMsg

/-- A character inside the set the claim says is allowed: the allow-list
together with whitespace. -/
def claimSafeChar (c : Char) : Bool :=
  allowedChars.contains c || isPySpace c

/-! ## Schedule conflict detector (`src/agents/tools.py`,
`detect_schedule_conflicts`) -/

/-- The regex class `\w` on the ASCII text this system handles. -/
def isWordChar (c : Char) : Bool := c.isAlphanum || c == '_'

/-- Matcher for `\d{2}\s+[AP]M` after the colon of the time pattern; `hr`
is the already-captured hour text, and the result is the verbatim captured
time text together with the rest of the input. -/
def timeTail (hr : List Char) : List Char → Option (List Char × List Char)
  | m1 :: m2 :: rest =>
    if m1.isDigit && m2.isDigit then
      let sp := rest.takeWhile isPySpace
      let r2 := rest.dropWhile isPySpace
      if sp.isEmpty then none
      else
        match r2 with
        | p :: 'M' :: r3 =>
          if p == 'A' || p == 'P' then
            some (hr ++ ':' :: m1 :: m2 :: (sp ++ [p, 'M']), r3)
          else none
        | _ => none
    else none
  | _ => none

/-- Matcher for `\d{1,2}:\d{2}\s+[AP]M` at the head of the input (the shape
of capture group 2 of the time pattern in `detect_schedule_conflicts`),
returning the captured text verbatim and the rest. The greedy `\d{1,2}`
commits to two digits when the second character is a digit; the one-digit
backtrack would then need that same character to be `:`, so no backtracking
alternative survives. -/
def matchTimeCore : List Char → Option (List Char × List Char)
  | a :: b :: rest =>
    if a.isDigit then
      if b.isDigit then
        match rest with
        | ':' :: r2 => timeTail [a, b] r2
        | _ => none
      else if b == ':' then timeTail [a] rest
      else none
    else none
  | _ => none

/-- Matcher at a fixed position for the full time pattern
`(\w+)\s+(\d{1,2}:\d{2}\s+[AP]M)\s*[-:]\s*\d{1,2}:\d{2}\s+[AP]M`,
returning capture group 1 (the day) and capture group 2 (the start time).
Each greedy run is followed by a mandatory character of a different class,
so backtracking collapses to maximal-run matching. -/
def matchSchedAt (cs : List Char) : Option (String × String) :=
  let w := cs.takeWhile isWordChar
  let r1 := cs.dropWhile isWordChar
  if w.isEmpty then none
  else
    let sp1 := r1.takeWhile isPySpace
    let r2 := r1.dropWhile isPySpace
    if sp1.isEmpty then none
    else
      match matchTimeCore r2 with
      | none => none
      | some (t1, r3) =>
        match r3.dropWhile isPySpace with
        | sep :: r5 =>
          if sep == '-' || sep == ':' then
            match matchTimeCore (r5.dropWhile isPySpace) with
            | some _ => some (⟨w⟩, ⟨t1⟩)
            | none => none
          else none
        | [] => none

/-- `re.search` with the time pattern: the leftmost matching position
wins. -/
def searchSched : List Char → Option (String × String)
  | [] => none
  | c :: rest =>
    match matchSchedAt (c :: rest) with
    | some r => some r
    | none => searchSched rest

/-- The Pattern Extractor's `extract_time_window` (spec section 4.1): the
time-pattern search of `detect_schedule_conflicts` applied to one line. -/
def extractTimeWindow (line : String) : Option (String × String) :=
  searchSched line.data

/-- Case-insensitive character equality (ASCII), for `re.IGNORECASE`. -/
def ciEq (a b : Char) : Bool := a.toLower == b.toLower

/-- Match a literal word case-insensitively, returning the consumed input
text verbatim and the rest. -/
def matchCI : List Char → List Char → Option (List Char × List Char)
  | [], cs => some ([], cs)
  | _ :: _, [] => none
  | p :: ps, c :: cs =>
    if ciEq p c then (matchCI ps cs).map fun (t, r) => (c :: t, r)
    else none

/-- The class `[IVX]` under IGNORECASE. -/
def isRomanChar (c : Char) : Bool :=
  c == 'I' || c == 'V' || c == 'X' || c == 'i' || c == 'v' || c == 'x'

/-- Matcher for the alternation `O-?Level|A-?Level|Level-?[IVX]+` under
IGNORECASE, alternatives in regex order (their first characters are
mutually exclusive, so no cross-alternative backtracking exists); inside
each alternative the greedy `-?` attempt falls back to the hyphen-less
reading exactly as the regex engine would. Returns the consumed text
verbatim and the rest. -/
def matchLevelTok (cs : List Char) : Option (List Char × List Char) :=
  (match cs with
   | c :: r =>
     if ciEq c 'O' then
       (match r with
        | '-' :: r2 => (matchCI "level".data r2).map fun p : List Char × List Char => (c :: '-' :: p.1, p.2)
        | _ => none)
       |>.orElse fun _ => (matchCI "level".data r).map fun p : List Char × List Char => (c :: p.1, p.2)
     else none
   | [] => none)
  |>.orElse fun _ =>
  (match cs with
   | c :: r =>
     if ciEq c 'A' then
       (match r with
        | '-' :: r2 => (matchCI "level".data r2).map fun p : List Char × List Char => (c :: '-' :: p.1, p.2)
        | _ => none)
       |>.orElse fun _ => (matchCI "level".data r).map fun p : List Char × List Char => (c :: p.1, p.2)
     else none
   | [] => none)
  |>.orElse fun _ =>
  (match matchCI "level".data cs with
   | some (t, r) =>
     (match r with
      | '-' :: r2 =>
        let rom := r2.takeWhile isRomanChar
        if rom.isEmpty then none
        else some (t ++ '-' :: rom, r2.dropWhile isRomanChar)
      | _ => none)
     |>.orElse fun _ =>
       let rom := r.takeWhile isRomanChar
       if rom.isEmpty then none
       else some (t ++ rom, r.dropWhile isRomanChar)
   | none => none)

/-- Matcher at a fixed position for
`(O-?Level|A-?Level|Level-?[IVX]+)\s+Section\s+([A-Z])` under IGNORECASE,
returning the whole matched text (`group(0)`) verbatim. -/
def matchClass1At (cs : List Char) : Option (List Char) :=
  match matchLevelTok cs with
  | none => none
  | some (lvl, r1) =>
    let sp1 := r1.takeWhile isPySpace
    let r2 := r1.dropWhile isPySpace
    if sp1.isEmpty then none
    else
      match matchCI "section".data r2 with
      | none => none
      | some (sec, r3) =>
        let sp2 := r3.takeWhile isPySpace
        let r4 := r3.dropWhile isPySpace
        if sp2.isEmpty then none
        else
          match r4 with
          | c :: _ => if c.isAlpha then some (lvl ++ sp1 ++ sec ++ sp2 ++ [c]) else none
          | [] => none

/-- `re.search` with the verbose class pattern: leftmost match wins. -/
def searchClass1 : List Char → Option (List Char)
  | [] => none
  | c :: rest =>
    match matchClass1At (c :: rest) with
    | some t => some t
    | none => searchClass1 rest

/-- The class `[A-Z]` without IGNORECASE. -/
def isUpperAZ (c : Char) : Bool := 'A' ≤ c && c ≤ 'Z'

/-- Matcher at a fixed position for `[OA]\d[A-Z]\b` (the trailing word
boundary checked against the following character). -/
def matchCompactAt (cs : List Char) : Option (List Char) :=
  match cs with
  | a :: d :: u :: rest =>
    if (a == 'O' || a == 'A') && d.isDigit && isUpperAZ u then
      match rest with
      | [] => some [a, d, u]
      | n :: _ => if isWordChar n then none else some [a, d, u]
    else none
  | _ => none

/-- `re.search` with `\b([OA]\d[A-Z])\b`: leftmost position whose preceding
character (tracked in `prev`) permits a word boundary. -/
def searchCompact (prev : Option Char) : List Char → Option (List Char)
  | [] => none
  | c :: rest =>
    let bOK := match prev with
      | none => true
      | some p => !isWordChar p
    match (if bOK then matchCompactAt (c :: rest) else none) with
    | some t => some t
    | none => searchCompact (some c) rest

/-- The class/section extraction of `detect_schedule_conflicts`: the verbose
pattern first, then the compact token, then the sentinel label. -/
def classLabel (line : String) : String :=
  match searchClass1 line.data with
  | some t => ⟨t⟩
  | none =>
    match searchCompact none line.data with
    | some t => ⟨t⟩
    | none => "Unknown Class"

/-- One extracted schedule entry (the dict appended to `teacher_schedule`). -/
structure SEntry where
  day : String
  time : String
  cls : String
  line : String
deriving DecidableEq, Repr

/-- The entry-extraction loop of `detect_schedule_conflicts`: keep lines
mentioning the teacher case-insensitively as a substring, and of those the
ones with a time-pattern match, in line order. -/
def entriesFor (teacherName context : String) : List SEntry :=
  (splitLines context).filterMap fun line =>
    if occursL (lowerStr teacherName).data (lowerStr line).data then
      match searchSched line.data with
      | some (day, time) => some ⟨day, time, classLabel line, pyStrip line⟩
      | none => none
    else none

/-- The rendered description of one conflict pair. -/
def descOf (e1 e2 : SEntry) : String :=
  e1.day ++ " " ++ e1.time ++ ": Teaching both " ++ e1.cls ++ " and " ++ e2.cls

/-- One step of the inner conflict loop: entries sharing (day, time) add
their description unless it is already present. -/
def pairStep (e1 : SEntry) (acc : List String) (e2 : SEntry) : List String :=
  if e1.day = e2.day ∧ e1.time = e2.time then
    if descOf e1 e2 ∈ acc then acc else acc ++ [descOf e1 e2]
  else acc

/-- The inner loop of the pairwise conflict scan (`entry2` ranging over the
entries after `entry1`). -/
def loop2 (e1 : SEntry) (rest : List SEntry) (acc : List String) : List String :=
  rest.foldl (pairStep e1) acc

/-- The outer loop of the pairwise conflict scan. -/
def loop1 : List SEntry → List String → List String
  | [], acc => acc
  | e :: rest, acc => loop1 rest (loop2 e rest acc)

/-- The deduplicated conflict descriptions computed by
`detect_schedule_conflicts` for a teacher and context. -/
def conflictDescs (teacherName context : String) : List String :=
  loop1 (entriesFor teacherName context) []

/-- The absence-of-data message of `detect_schedule_conflicts`. -/
def noInfoMsg (teacherName : String) : String :=
  "No schedule information found for " ++ teacherName

/-- The absence-of-overlap message of `detect_schedule_conflicts`. -/
def noConflictsMsg (teacherName : String) : String :=
  "No scheduling conflicts found for " ++ teacherName

/-- `detect_schedule_conflicts` from `src/agents/tools.py`. -/
def detectScheduleConflicts (teacherName context : String) : String :=
  let sched := entriesFor teacherName context
  if sched.isEmpty then noInfoMsg teacherName
  else
    let cs := loop1 sched []
    if cs.isEmpty then noConflictsMsg teacherName
    else
      let header := "Found " ++ toString cs.length ++ " scheduling conflict(s) for "
        ++ teacherName ++ ":\n"
      let body := String.join (cs.enum.map fun ic =>
        toString (ic.1 + 1) ++ ". " ++ ic.2 ++ "\n")
      pyStrip (header ++ body)

/-- Declarative reading of the time fragment `\d{1,2}:\d{2}\s+[AP]M`: one or
two hour digits, a colon, two minute digits, a nonempty whitespace run, and
a meridiem letter followed by `M`. This is the shape of one `H:MM AM/PM`
time text — a single time, not a start-end range. -/
def IsTimeText (t : List Char) : Prop :=
  ∃ (hr : List Char) (m1 m2 : Char) (sp : List Char) (ap : Char),
    ((∃ d, hr = [d] ∧ d.isDigit = true) ∨
      (∃ d e, hr = [d, e] ∧ d.isDigit = true ∧ e.isDigit = true)) ∧
    m1.isDigit = true ∧ m2.isDigit = true ∧
    sp ≠ [] ∧ (∀ c ∈ sp, isPySpace c = true) ∧
    (ap = 'A' ∨ ap = 'P') ∧
    t = hr ++ ':' :: m1 :: m2 :: (sp ++ [ap, 'M'])

/-- The concrete schedule context of the spec's conflict example. -/
def ctxC3 : String :=
  "Monday 9:00 AM - 10:00 AM: O-Level Section A (Muhammad Hammad)\nMonday 9:00 AM - 10:00 AM: O-Level Section B (Muhammad Hammad)"

/-- A context repeating the same schedule line twice. -/
def ctxDup : String :=
  "Monday 9:00 AM - 10:00 AM: O-Level Section A (Muhammad Hammad)\nMonday 9:00 AM - 10:00 AM: O-Level Section A (Muhammad Hammad)"

/-- The schedule entry extracted from each line of `ctxDup`. -/
def eDup : SEntry :=
  ⟨"Monday", "9:00 AM", "O-Level Section A",
   "Monday 9:00 AM - 10:00 AM: O-Level Section A (Muhammad Hammad)"⟩

/-! ## Agent constructor and invocation (`src/agents/agent.py`) -/

/-- The constructor arguments of `EducationalDocumentAgent.__init__`. -/
structure AgentInitArgs where
  model : Option String
  temperature : Frac
  maxIterations : Nat
  verbose : Bool
deriving DecidableEq, Repr

/-- The declared defaults of `EducationalDocumentAgent.__init__`
(`model=None`, `temperature=0.0`, `max_iterations=10`, `verbose=True`). -/
def agentDefaults : AgentInitArgs := ⟨none, ⟨0, 1⟩, 10, true⟩

/-- The names of the tools built by `create_agent_tools`. -/
def agentToolNames : List String :=
  ["calculator_tool", "detect_conflicts_tool", "export_csv_tool", "search_documents_tool"]

/-- The arguments `__init__` passes to the library's `create_react_agent`:
the LLM (model and temperature) and the tools. -/
structure ReactAgentSpec where
  llmModel : String
  llmTemperature : Frac
  toolNames : List String
deriving DecidableEq, Repr

/-- The executor construction in `EducationalDocumentAgent.__init__`:
`create_react_agent(model=self.llm, tools=self.tools)`, with
`self.llm = ChatOpenAI(model or settings.llm_model, temperature)` — nothing
else from the constructor arguments reaches the executor. -/
def buildReactAgent (settingsModel : String) (args : AgentInitArgs) : ReactAgentSpec :=
  { llmModel := args.model.getD settingsModel
    llmTemperature := args.temperature
    toolNames := agentToolNames }

/-- The result dict of `EducationalDocumentAgent.invoke`
(`output` and `intermediate_steps`). -/
structure AgentResult where
  output : String
  intermediateSteps : List String
deriving DecidableEq, Repr

/-- `EducationalDocumentAgent.invoke` downstream of the executor call; the
executor outcome is either the returned message list or a raised exception
(for instance the recursion-limit error the library executor raises when a
stubbed generator requests a tool call on every cycle). The `try/except`
converts any raise into the generic error answer. -/
def invokeAgent (executorOutcome : Except String (List String)) : AgentResult :=
  match executorOutcome with
  | .ok [] => ⟨"No response generated", []⟩
  | .ok (m :: ms) =>
    ⟨(m :: ms).getLast (List.cons_ne_nil m ms),
     if ms.isEmpty then [] else (m :: ms).dropLast⟩
  | .error e => ⟨"I encountered an error while processing your question: " ++ e, []⟩

/-! ## Helper lemmas -/

theorem mem_dropWhile_of_mem {α} {p : α → Bool} {a : α} {l : List α}
    (h : a ∈ l) (hp : p a = false) : a ∈ l.dropWhile p := by
  have hsplit := List.takeWhile_append_dropWhile (p := p) (l := l)
  rw [← hsplit] at h
  rcases List.mem_append.mp h with h1 | h2
  · have := List.mem_takeWhile_imp h1
    rw [hp] at this
    exact absurd this (by simp)
  · exact h2

theorem mem_pyStrip {c : Char} {s : String}
    (h : c ∈ s.data) (hsp : isPySpace c = false) : c ∈ (pyStrip s).data := by
  show c ∈ ((s.data.dropWhile isPySpace).reverse.dropWhile isPySpace).reverse
  rw [List.mem_reverse]
  refine mem_dropWhile_of_mem ?_ hsp
  rw [List.mem_reverse]
  exact mem_dropWhile_of_mem h hsp

theorem takeWhile_append_run {p : Char → Bool} {xs : List Char}
    (h : ∀ c ∈ xs, p c = true) {y : Char} (hy : p y = false) (ys : List Char) :
    (xs ++ y :: ys).takeWhile p = xs ∧ (xs ++ y :: ys).dropWhile p = y :: ys := by
  induction xs with
  | nil => simp [List.takeWhile_cons, List.dropWhile_cons, hy]
  | cons a as ih =>
    have ha : p a = true := h a (List.mem_cons_self a as)
    have has : ∀ c ∈ as, p c = true := fun c hc => h c (List.mem_cons_of_mem a hc)
    have := ih has
    simp [List.takeWhile_cons, List.dropWhile_cons, ha, this.1, this.2]

theorem digit_not_space {c : Char} (h : c.isDigit = true) : isPySpace c = false := by
  cases hsp : isPySpace c
  · rfl
  · exfalso
    unfold isPySpace at hsp
    simp only [Bool.or_eq_true, beq_iff_eq] at hsp
    rcases hsp with ((((h1 | h1) | h1) | h1) | h1) | h1 <;> subst h1 <;>
      exact absurd h (by decide)

theorem meridiem_not_space {c : Char} (h : c = 'A' ∨ c = 'P') :
    isPySpace c = false := by
  rcases h with h | h <;> subst h <;> decide

theorem meridiem_ok {c : Char} (h : c = 'A' ∨ c = 'P') :
    (c == 'A' || c == 'P') = true := by
  rcases h with h | h <;> subst h <;> decide

theorem space_not_word {c : Char} (h : isPySpace c = true) : isWordChar c = false := by
  unfold isPySpace at h
  simp only [Bool.or_eq_true, beq_iff_eq] at h
  rcases h with ((((h1 | h1) | h1) | h1) | h1) | h1 <;> subst h1 <;> decide

theorem isTimeText_head {t : List Char} (h : IsTimeText t) :
    ∃ d ys, t = d :: ys ∧ d.isDigit = true := by
  obtain ⟨hr, m1, m2, sp, ap, hhr, _, _, _, _, _, hteq⟩ := h
  rcases hhr with ⟨d, hd, hdig⟩ | ⟨d, e, hde, hdig, _⟩
  · exact ⟨d, ':' :: m1 :: m2 :: (sp ++ [ap, 'M']), by rw [hteq, hd]; rfl, hdig⟩
  · exact ⟨d, e :: ':' :: m1 :: m2 :: (sp ++ [ap, 'M']), by rw [hteq, hde]; rfl, hdig⟩

theorem timeTail_render (hr : List Char) {m1 m2 ap : Char} {sp : List Char}
    (hm1 : m1.isDigit = true) (hm2 : m2.isDigit = true)
    (hsp : sp ≠ []) (hspAll : ∀ c ∈ sp, isPySpace c = true)
    (hap : ap = 'A' ∨ ap = 'P') (tail : List Char) :
    timeTail hr (m1 :: m2 :: (sp ++ ap :: 'M' :: tail))
      = some (hr ++ ':' :: m1 :: m2 :: (sp ++ [ap, 'M']), tail) := by
  have hE : sp.isEmpty = false := by
    cases sp
    · exact absurd rfl hsp
    · exact List.isEmpty_cons
  have hrun := takeWhile_append_run hspAll (meridiem_not_space hap) ('M' :: tail)
  rcases hap with h | h <;> subst h <;>
    simp [timeTail, hm1, hm2, hrun.1, hrun.2, hE]

theorem matchTimeCore_complete {t : List Char} (ht : IsTimeText t)
    (tail : List Char) : matchTimeCore (t ++ tail) = some (t, tail) := by
  obtain ⟨hr, m1, m2, sp, ap, hhr, hm1, hm2, hsp, hspAll, hap, hteq⟩ := ht
  subst hteq
  rcases hhr with ⟨d, hd, hdig⟩ | ⟨d, e, hde, hdig, hedig⟩
  · subst hd
    have hshape : ([d] ++ ':' :: m1 :: m2 :: (sp ++ [ap, 'M'])) ++ tail
        = d :: ':' :: m1 :: m2 :: (sp ++ ap :: 'M' :: tail) := by simp
    rw [hshape]
    have hcolon : (':' : Char).isDigit = false := by decide
    simp only [matchTimeCore, hdig, hcolon, if_true, Bool.false_eq_true, if_false,
      beq_self_eq_true]
    rw [timeTail_render _ hm1 hm2 hsp hspAll hap tail]
  · subst hde
    have hshape : ([d, e] ++ ':' :: m1 :: m2 :: (sp ++ [ap, 'M'])) ++ tail
        = d :: e :: ':' :: m1 :: m2 :: (sp ++ ap :: 'M' :: tail) := by simp
    rw [hshape]
    simp only [matchTimeCore, hdig, hedig, if_true]
    rw [timeTail_render _ hm1 hm2 hsp hspAll hap tail]

theorem timeTail_sound {hr cs : List Char} {t r : List Char}
    (h : timeTail hr cs = some (t, r)) :
    ∃ m1 m2 sp ap, m1.isDigit = true ∧ m2.isDigit = true ∧
      sp ≠ [] ∧ (∀ c ∈ sp, isPySpace c = true) ∧ (ap = 'A' ∨ ap = 'P') ∧
      t = hr ++ ':' :: m1 :: m2 :: (sp ++ [ap, 'M']) ∧
      cs = m1 :: m2 :: (sp ++ ap :: 'M' :: r) := by
  match cs with
  | [] => simp [timeTail] at h
  | [m1] => simp [timeTail] at h
  | m1 :: m2 :: rest =>
    simp only [timeTail] at h
    split at h
    · next hdig =>
      split at h
      · simp at h
      · next hspE =>
        split at h
        · next p r3 heq =>
          split at h
          · next hpAP =>
            simp only [Option.some.injEq, Prod.mk.injEq] at h
            obtain ⟨ht, hr3⟩ := h
            subst hr3
            obtain ⟨hm1, hm2⟩ : m1.isDigit = true ∧ m2.isDigit = true := by
              simpa using hdig
            have hap : p = 'A' ∨ p = 'P' := by simpa using hpAP
            refine ⟨m1, m2, rest.takeWhile isPySpace, p, hm1, hm2, ?_, ?_, hap,
              ht.symm, ?_⟩
            · intro hnil
              rw [hnil] at hspE
              exact hspE rfl
            · intro c hc
              exact List.mem_takeWhile_imp hc
            · have hsplit := List.takeWhile_append_dropWhile (p := isPySpace) (l := rest)
              rw [heq] at hsplit
              exact congrArg (fun l => m1 :: m2 :: l) hsplit.symm
          · simp at h
        · simp at h
    · simp at h

theorem matchTimeCore_sound {cs t r : List Char}
    (h : matchTimeCore cs = some (t, r)) : IsTimeText t ∧ cs = t ++ r := by
  match cs with
  | [] => simp [matchTimeCore] at h
  | [a] => simp [matchTimeCore] at h
  | a :: b :: rest =>
    simp only [matchTimeCore] at h
    split at h
    · next haD =>
      split at h
      · next hbD =>
        split at h
        · next r2 =>
          obtain ⟨m1, m2, sp, ap, hm1, hm2, hsp, hspAll, hap, hteq, rfl⟩ :=
            timeTail_sound h
          refine ⟨⟨[a, b], m1, m2, sp, ap,
            Or.inr ⟨a, b, rfl, haD, hbD⟩, hm1, hm2, hsp, hspAll, hap, hteq⟩, ?_⟩
          rw [hteq]
          simp
        · simp at h
      · split at h
        · next hbC =>
          have hb : b = ':' := beq_iff_eq.mp hbC
          subst hb
          obtain ⟨m1, m2, sp, ap, hm1, hm2, hsp, hspAll, hap, hteq, rfl⟩ :=
            timeTail_sound h
          refine ⟨⟨[a], m1, m2, sp, ap,
            Or.inl ⟨a, rfl, haD⟩, hm1, hm2, hsp, hspAll, hap, hteq⟩, ?_⟩
          rw [hteq]
          simp
        · simp at h
    · simp at h

theorem searchSched_head {cs : List Char} {r : String × String}
    (hne : cs ≠ []) (h : matchSchedAt cs = some r) : searchSched cs = some r := by
  match cs with
  | [] => exact absurd rfl hne
  | c :: rest => simp [searchSched, h]

theorem searchSched_sound {cs : List Char} {r : String × String}
    (h : searchSched cs = some r) :
    ∃ pre suf, cs = pre ++ suf ∧ matchSchedAt suf = some r := by
  induction cs with
  | nil => simp [searchSched] at h
  | cons c rest ih =>
    simp only [searchSched] at h
    cases hm : matchSchedAt (c :: rest) with
    | some r' =>
      rw [hm] at h
      simp only [Option.some.injEq] at h
      exact ⟨[], c :: rest, rfl, by rw [hm, h]⟩
    | none =>
      rw [hm] at h
      obtain ⟨pre, suf, heq, hms⟩ := ih h
      exact ⟨c :: pre, suf, by rw [heq]; rfl, hms⟩

theorem searchSched_isSome_of_suffix (pre : List Char) {suf : List Char}
    {r : String × String} (h : matchSchedAt suf = some r) :
    (searchSched (pre ++ suf)).isSome = true := by
  induction pre with
  | nil =>
    match suf with
    | [] =>
      have hnone : matchSchedAt ([] : List Char) = none := rfl
      rw [hnone] at h
      exact Option.noConfusion h
    | c :: rest =>
      simp [searchSched, h]
  | cons c pre' ih =>
    simp only [List.cons_append, searchSched]
    cases hm : matchSchedAt (c :: (pre' ++ suf)) with
    | some r' => simp
    | none => simpa using ih

theorem matchSchedAt_complete {day sp1 t1 sp2 sp3 t2 : List Char} {sep : Char}
    (rest : List Char)
    (hday : day ≠ []) (hdayW : ∀ c ∈ day, isWordChar c = true)
    (hsp1 : sp1 ≠ []) (hsp1S : ∀ c ∈ sp1, isPySpace c = true)
    (ht1 : IsTimeText t1) (hsp2 : ∀ c ∈ sp2, isPySpace c = true)
    (hsep : sep = '-' ∨ sep = ':') (hsp3 : ∀ c ∈ sp3, isPySpace c = true)
    (ht2 : IsTimeText t2) :
    matchSchedAt (day ++ (sp1 ++ (t1 ++ (sp2 ++ sep :: (sp3 ++ (t2 ++ rest))))))
      = some (⟨day⟩, ⟨t1⟩) := by
  obtain ⟨s, sp1', rfl⟩ : ∃ s sp1', sp1 = s :: sp1' := by
    cases sp1 with
    | nil => exact absurd rfl hsp1
    | cons a l => exact ⟨a, l, rfl⟩
  obtain ⟨d1, ys1, ht1eq, hd1⟩ := isTimeText_head ht1
  obtain ⟨d2, ys2, ht2eq, hd2⟩ := isTimeText_head ht2
  have hsS : isPySpace s = true := hsp1S s (List.mem_cons_self s sp1')
  have hsW : isWordChar s = false := space_not_word hsS
  have hdayE : day.isEmpty = false := by
    cases day
    · exact absurd rfl hday
    · exact List.isEmpty_cons
  show matchSchedAt (day ++ s :: (sp1' ++ (t1 ++ (sp2 ++ sep ::
      (sp3 ++ (t2 ++ rest)))))) = some (⟨day⟩, ⟨t1⟩)
  have hw := takeWhile_append_run hdayW hsW
    (sp1' ++ (t1 ++ (sp2 ++ sep :: (sp3 ++ (t2 ++ rest)))))
  have hA : (s :: (sp1' ++ (t1 ++ (sp2 ++ sep :: (sp3 ++ (t2 ++ rest)))))).takeWhile
      isPySpace = s :: sp1' := by
    rw [show s :: (sp1' ++ (t1 ++ (sp2 ++ sep :: (sp3 ++ (t2 ++ rest)))))
        = (s :: sp1') ++ (d1 :: (ys1 ++ (sp2 ++ sep :: (sp3 ++ (t2 ++ rest)))))
      from by simp [ht1eq]]
    exact (takeWhile_append_run hsp1S (digit_not_space hd1) _).1
  have hB : (s :: (sp1' ++ (t1 ++ (sp2 ++ sep :: (sp3 ++ (t2 ++ rest)))))).dropWhile
      isPySpace = t1 ++ (sp2 ++ sep :: (sp3 ++ (t2 ++ rest))) := by
    rw [show s :: (sp1' ++ (t1 ++ (sp2 ++ sep :: (sp3 ++ (t2 ++ rest)))))
        = (s :: sp1') ++ (d1 :: (ys1 ++ (sp2 ++ sep :: (sp3 ++ (t2 ++ rest)))))
      from by simp [ht1eq]]
    rw [(takeWhile_append_run hsp1S (digit_not_space hd1) _).2]
    simp [ht1eq]
  have hmt1 : matchTimeCore (t1 ++ (sp2 ++ sep :: (sp3 ++ (t2 ++ rest))))
      = some (t1, sp2 ++ sep :: (sp3 ++ (t2 ++ rest))) := matchTimeCore_complete ht1 _
  have hsepS : isPySpace sep = false := by
    rcases hsep with h | h <;> subst h <;> decide
  have hC : (sp2 ++ sep :: (sp3 ++ (t2 ++ rest))).dropWhile isPySpace
      = sep :: (sp3 ++ (t2 ++ rest)) := (takeWhile_append_run hsp2 hsepS _).2
  have hsepB : (sep == '-' || sep == ':') = true := by
    rcases hsep with h | h <;> subst h <;> decide
  have hD : (sp3 ++ (t2 ++ rest)).dropWhile isPySpace = t2 ++ rest := by
    rw [show sp3 ++ (t2 ++ rest) = sp3 ++ (d2 :: (ys2 ++ rest)) from by simp [ht2eq]]
    rw [(takeWhile_append_run hsp3 (digit_not_space hd2) _).2]
    simp [ht2eq]
  have hmt2 : matchTimeCore (t2 ++ rest) = some (t2, rest) :=
    matchTimeCore_complete ht2 rest
  simp only [matchSchedAt, hw.1, hw.2, hdayE, Bool.false_eq_true, if_false, hA, hB,
    hmt1, hC, hD, hmt2, List.isEmpty_cons, hsepB, if_true]

theorem matchSchedAt_sound {cs : List Char} {d t : String}
    (h : matchSchedAt cs = some (d, t)) :
    d.data ≠ [] ∧ (∀ c ∈ d.data, isWordChar c = true) ∧ IsTimeText t.data ∧
    ∃ sp1 sp2 sep sp3 t2 rest,
      cs = d.data ++ (sp1 ++ (t.data ++ (sp2 ++ sep :: (sp3 ++ (t2 ++ rest))))) ∧
      sp1 ≠ [] ∧ (∀ c ∈ sp1, isPySpace c = true) ∧
      (∀ c ∈ sp2, isPySpace c = true) ∧ (sep = '-' ∨ sep = ':') ∧
      (∀ c ∈ sp3, isPySpace c = true) ∧ IsTimeText t2 := by
  simp only [matchSchedAt] at h
  split at h
  · simp at h
  · next hwE =>
    split at h
    · simp at h
    · next hspE =>
      split at h
      · simp at h
      · next t1' r3 heq1 =>
        split at h
        · next sep r5 heq2 =>
          split at h
          · next hsepB =>
            split at h
            · next val heq3 =>
              simp only [Option.some.injEq, Prod.mk.injEq] at h
              obtain ⟨hdd, htt⟩ := h
              subst hdd
              subst htt
              have hs1 := matchTimeCore_sound heq1
              have hs3 := matchTimeCore_sound (show matchTimeCore
                (List.dropWhile isPySpace r5) = some (val.1, val.2) from heq3)
              refine ⟨?_, ?_, hs1.1, List.takeWhile isPySpace
                  (List.dropWhile isWordChar cs), List.takeWhile isPySpace r3, sep,
                  List.takeWhile isPySpace r5, val.1, val.2, ?_, ?_, ?_, ?_, ?_, ?_,
                  hs3.1⟩
              · show List.takeWhile isWordChar cs ≠ []
                intro hnil
                rw [hnil] at hwE
                exact hwE rfl
              · intro c hc
                exact List.mem_takeWhile_imp hc
              · show cs = List.takeWhile isWordChar cs ++ _
                conv_lhs => rw [← List.takeWhile_append_dropWhile (p := isWordChar)
                  (l := cs)]
                congr 1
                conv_lhs => rw [← List.takeWhile_append_dropWhile (p := isPySpace)
                  (l := List.dropWhile isWordChar cs)]
                congr 1
                rw [hs1.2]
                congr 1
                conv_lhs => rw [← List.takeWhile_append_dropWhile (p := isPySpace)
                  (l := r3)]
                rw [heq2]
                congr 2
                conv_lhs => rw [← List.takeWhile_append_dropWhile (p := isPySpace)
                  (l := r5)]
                rw [hs3.2]
              · intro hnil
                rw [hnil] at hspE
                exact hspE rfl
              · intro c hc
                exact List.mem_takeWhile_imp hc
              · intro c hc
                exact List.mem_takeWhile_imp hc
              · exact (by simpa using hsepB : sep = '-' ∨ sep = ':')
              · intro c hc
                exact List.mem_takeWhile_imp hc
            · simp at h
          · simp at h
        · simp at h

theorem pairStep_nodup {e1 : SEntry} {acc : List String} (h : acc.Nodup)
    (e2 : SEntry) : (pairStep e1 acc e2).Nodup := by
  unfold pairStep
  split
  · split
    · exact h
    · next hnotmem =>
      rw [List.nodup_append]
      exact ⟨h, List.nodup_singleton _, by
        intro a ha hb
        rw [List.mem_singleton] at hb
        subst hb
        exact hnotmem ha⟩
  · exact h

theorem loop2_nodup (e1 : SEntry) (rest : List SEntry) :
    ∀ acc : List String, acc.Nodup → (loop2 e1 rest acc).Nodup := by
  induction rest with
  | nil => intro acc h; exact h
  | cons x xs ih =>
    intro acc h
    exact ih (pairStep e1 acc x) (pairStep_nodup h x)

theorem loop1_nodup (entries : List SEntry) :
    ∀ acc : List String, acc.Nodup → (loop1 entries acc).Nodup := by
  induction entries with
  | nil => intro acc h; exact h
  | cons e rest ih =>
    intro acc h
    exact ih (loop2 e rest acc) (loop2_nodup e rest acc h)

theorem pairStep_mem {e1 e2 : SEntry} {acc : List String} {d : String}
    (h : d ∈ pairStep e1 acc e2) :
    d ∈ acc ∨ (e1.day = e2.day ∧ e1.time = e2.time ∧ d = descOf e1 e2) := by
  unfold pairStep at h
  split at h
  · next hsame =>
    split at h
    · exact Or.inl h
    · rcases List.mem_append.mp h with h1 | h1
      · exact Or.inl h1
      · rw [List.mem_singleton] at h1
        exact Or.inr ⟨hsame.1, hsame.2, h1⟩
  · exact Or.inl h

theorem loop2_mem (e1 : SEntry) (rest : List SEntry) :
    ∀ (acc : List String) (d : String), d ∈ loop2 e1 rest acc →
      d ∈ acc ∨ ∃ e2 ∈ rest, e1.day = e2.day ∧ e1.time = e2.time ∧ d = descOf e1 e2 := by
  induction rest with
  | nil => intro acc d h; exact Or.inl h
  | cons x xs ih =>
    intro acc d h
    rcases ih (pairStep e1 acc x) d h with h1 | ⟨e2, he2, hsame⟩
    · rcases pairStep_mem h1 with h2 | h2
      · exact Or.inl h2
      · exact Or.inr ⟨x, List.mem_cons_self x xs, h2⟩
    · exact Or.inr ⟨e2, List.mem_cons_of_mem x he2, hsame⟩

theorem loop1_mem (entries : List SEntry) :
    ∀ (acc : List String) (d : String), d ∈ loop1 entries acc →
      d ∈ acc ∨ ∃ e1 e2 : SEntry, [e1, e2].Sublist entries ∧
        e1.day = e2.day ∧ e1.time = e2.time ∧ d = descOf e1 e2 := by
  induction entries with
  | nil => intro acc d h; exact Or.inl h
  | cons e rest ih =>
    intro acc d h
    rcases ih (loop2 e rest acc) d h with h1 | ⟨e1, e2, hsub, hsame⟩
    · rcases loop2_mem e rest acc d h1 with h2 | ⟨e2, he2, hsame⟩
      · exact Or.inl h2
      · exact Or.inr ⟨e, e2, (List.singleton_sublist.mpr he2).cons₂ e, hsame⟩
    · exact Or.inr ⟨e1, e2, hsub.cons e, hsame⟩

/-! ## Theorems: query router -/

/-- C2 (counterexample): with the generator unavailable, a query containing
the aggregation cue "how many" is routed as Simple (the outer `except`
fallback), not as Aggregation — the keyword heuristic is not reached, so the
claim as stated is false at this input. -/
theorem route_unavailable_aggregation_cex :
    routeQuery (.unavailable "generator unavailable") "how many students are enrolled"
      = fallbackSimpleRoute ∧
    containsSub (lowerStr "how many students are enrolled") "how many" = true ∧
    fallbackSimpleRoute.queryType ≠ QueryType.aggregation := by
  refine ⟨rfl, by decide, by decide⟩

/-- C2 (amended): an exception while invoking the classifier makes
`route_query` return the Simple fallback route for every query; the keyword
heuristic runs only when a classifier reply is received but parsing it
raises, and in that case a query whose lowercased text contains one of
"how many", "count", "total", "number of" is routed as Aggregation. -/
theorem route_fallback_paths :
    (∀ e q, routeQuery (.unavailable e) q = fallbackSimpleRoute) ∧
    (∀ t q, containsAny (lowerStr q) aggCues = true →
      routeQuery (.malformedReply t) q
        = ⟨.aggregation, "Query contains aggregation keywords", none⟩) := by
  constructor
  · intro e q; rfl
  · intro t q h
    simp only [routeQuery, routePrimary, heuristicRoute, h, if_true]

/-- Witness for `route_fallback_paths` at a concrete malformed reply and
aggregation query. -/
theorem route_fallback_paths_witness :
    routeQuery (.malformedReply "Type ???") "how many students are enrolled"
      = ⟨.aggregation, "Query contains aggregation keywords", none⟩ :=
  route_fallback_paths.2 "Type ???" "how many students are enrolled" (by decide)

/-- C9: `route_query` never lets an exception escape — the exception-tracking
embedding always returns `Except.ok`, and in the worst case (classifier
invocation raised) the result is the Simple route with the generic
reasoning string. -/
theorem route_never_raises :
    (∀ o q, routeQueryE o q = Except.ok (routeQuery o q)) ∧
    (∀ e q, routeQuery (.unavailable e) q = fallbackSimpleRoute) := by
  constructor
  · intro o q; cases o <;> rfl
  · intro e q; rfl

/-- C8: in the heuristic fallback the cue sets are checked in the order
aggregation, breadth, tool-use: a query with a tool-use cue and no earlier
cue routes as Complex; any aggregation cue routes as Aggregation regardless
of the other cue sets; a breadth cue with no aggregation cue routes as
CrossDocument. -/
theorem heuristic_cue_order (q : String) :
    (containsAny (lowerStr q) aggCues = false →
      containsAny (lowerStr q) breadthCues = false →
      containsAny (lowerStr q) complexCues = true →
      heuristicRoute q = ⟨.complex, "Query requires complex reasoning or tools", none⟩) ∧
    (containsAny (lowerStr q) aggCues = true →
      heuristicRoute q = ⟨.aggregation, "Query contains aggregation keywords", none⟩) ∧
    (containsAny (lowerStr q) aggCues = false →
      containsAny (lowerStr q) breadthCues = true →
      heuristicRoute q = ⟨.crossDocument, "Query likely requires multiple documents", none⟩) := by
  refine ⟨?_, ?_, ?_⟩ <;> intros <;> simp only [heuristicRoute, *] <;> rfl

/-- Witness for `heuristic_cue_order` at concrete queries exercising each
cue set. -/
theorem heuristic_cue_order_witness :
    heuristicRoute "export the conflict report to csv"
      = ⟨.complex, "Query requires complex reasoning or tools", none⟩ ∧
    heuristicRoute "how many students are enrolled"
      = ⟨.aggregation, "Query contains aggregation keywords", none⟩ ∧
    heuristicRoute "which students attend section b"
      = ⟨.crossDocument, "Query likely requires multiple documents", none⟩ :=
  ⟨(heuristic_cue_order "export the conflict report to csv").1
      (by decide) (by decide) (by decide),
   (heuristic_cue_order "how many students are enrolled").2.1 (by decide),
   (heuristic_cue_order "which students attend section b").2.2
      (by decide) (by decide)⟩

/-- C10: the breadth cue "all" is matched as a raw substring of the
lowercased query, not as a whole word: any query containing the letter
sequence "all" (in particular inside a longer word such as "overall") and
no aggregation cue routes as CrossDocument in the heuristic fallback. -/
theorem heuristic_all_raw_substring :
    ∀ q, containsSub (lowerStr q) "all" = true →
      containsAny (lowerStr q) aggCues = false →
      heuristicRoute q = ⟨.crossDocument, "Query likely requires multiple documents", none⟩ := by
  intro q h1 h2
  have hb : containsAny (lowerStr q) breadthCues = true := by
    simp only [containsAny, breadthCues, List.any_cons, h1, Bool.true_or]
  simp only [heuristicRoute, h2, hb, if_true, Bool.false_eq_true, if_false]

/-- Witness for `heuristic_all_raw_substring`: "overall" contains "all"
inside a longer word. -/
theorem heuristic_all_raw_substring_witness :
    heuristicRoute "what is the overall average"
      = ⟨.crossDocument, "Query likely requires multiple documents", none⟩ :=
  heuristic_all_raw_substring "what is the overall average" (by decide) (by decide)

/-! ## Theorems: calculator -/

/-- C4: `calculator` is a total string-to-string function; any expression
containing a character outside digits, `+ - * / ( ) . ,` and whitespace is
rejected with the fixed `"Error:"`-prefixed allow-list message before any
evaluation (so `calculator "1; import os"` is rejected outright);
`calculator "5 / 0"` reports division by zero; well-formed expressions
return the stringified numeric result. -/
theorem calculator_contract :
    (∀ s : String, ∀ c ∈ s.data, claimSafeChar c = false →
      calculator s = invalidCharsMsg) ∧
    leadsL "Error:".data invalidCharsMsg.data = true ∧
    calculator "1; import os" = invalidCharsMsg ∧
    calculator "5 / 0" = "Error: Division by zero" ∧
    calculator "15 + 7" = "22" ∧
    calculator "100 / 4" = "25.0" := by
  refine ⟨?_, by decide, by decide, by decide, by decide, by decide⟩
  intro s c hc hbad
  have hAllow : allowedChars.contains c = false := by
    revert hbad; unfold claimSafeChar
    cases allowedChars.contains c <;> simp
  have hSp : isPySpace c = false := by
    revert hbad; unfold claimSafeChar
    cases isPySpace c <;> simp
  have hmem : c ∈ (pyStrip s).data := mem_pyStrip hc hSp
  have hall : (pyStrip s).data.all (fun x => allowedChars.contains x) = false := by
    refine Bool.eq_false_iff.mpr fun hAll => ?_
    have := List.all_eq_true.mp hAll c hmem
    rw [hAllow] at this
    exact absurd this (by simp)
  simp only [calculator, hall, Bool.false_eq_true, if_false]

/-- Witness for `calculator_contract` at the concrete disallowed
character `;`. -/
theorem calculator_contract_witness :
    calculator "1; import os" = invalidCharsMsg :=
  calculator_contract.1 "1; import os" ';' (by decide) (by decide)

/-! ## Theorems: conflict detector -/

/-- C3: on the two-line O-Level Section A / Section B context,
`detect_schedule_conflicts` reports exactly one conflict with the expected
description and a count of 1. -/
theorem detect_conflicts_example :
    conflictDescs "Muhammad Hammad" ctxC3
      = ["Monday 9:00 AM: Teaching both O-Level Section A and O-Level Section B"] ∧
    detectScheduleConflicts "Muhammad Hammad" ctxC3
      = "Found 1 scheduling conflict(s) for Muhammad Hammad:\n1. Monday 9:00 AM: Teaching both O-Level Section A and O-Level Section B" :=
  ⟨by decide, by decide⟩

/-- C5: an empty extracted-entry list yields the "no schedule information
found" message (in particular on an empty context), a nonempty entry list
without collisions yields the "no scheduling conflicts found" message, and
the two messages differ for every teacher name. -/
theorem no_info_vs_no_conflicts :
    (∀ t c : String, entriesFor t c = [] →
      detectScheduleConflicts t c = noInfoMsg t) ∧
    (∀ t c : String, entriesFor t c ≠ [] → loop1 (entriesFor t c) [] = [] →
      detectScheduleConflicts t c = noConflictsMsg t) ∧
    detectScheduleConflicts "Jane Doe" "" = noInfoMsg "Jane Doe" ∧
    (∀ t : String, noInfoMsg t ≠ noConflictsMsg t) := by
  refine ⟨?_, ?_, by decide, ?_⟩
  · intro t c h
    simp [detectScheduleConflicts, h]
  · intro t c h1 h2
    have hE : (entriesFor t c).isEmpty = false := by
      cases hE : entriesFor t c
      · exact absurd hE h1
      · exact List.isEmpty_cons
    simp [detectScheduleConflicts, hE, h2]
  · intro t h
    unfold noInfoMsg noConflictsMsg at h
    have hd := congrArg String.data h
    rw [String.data_append, String.data_append] at hd
    have := List.append_cancel_right hd
    exact absurd this (by decide)

/-- Witness for `no_info_vs_no_conflicts` at concrete empty and
single-entry contexts. -/
theorem no_info_vs_no_conflicts_witness :
    detectScheduleConflicts "Jane Doe" "" = noInfoMsg "Jane Doe" ∧
    detectScheduleConflicts "Jane Doe"
        "Monday 9:00 AM - 10:00 AM: O-Level Section A (Jane Doe)"
      = noConflictsMsg "Jane Doe" ∧
    noInfoMsg "Jane Doe" ≠ noConflictsMsg "Jane Doe" :=
  ⟨no_info_vs_no_conflicts.1 "Jane Doe" "" (by decide),
   no_info_vs_no_conflicts.2.1 "Jane Doe"
     "Monday 9:00 AM - 10:00 AM: O-Level Section A (Jane Doe)" (by decide) (by decide),
   no_info_vs_no_conflicts.2.2.2 "Jane Doe"⟩

/-- C6 (counterexample): on a context repeating one schedule line twice, the
detector reports a conflict pairing two entries with the *same* class
label, so the claim that every reported conflict comes from a pair with
differing class labels is false. -/
theorem conflict_equal_labels_cex :
    ¬ (∀ d ∈ conflictDescs "Muhammad Hammad" ctxDup,
        ∃ e1 e2 : SEntry, [e1, e2].Sublist (entriesFor "Muhammad Hammad" ctxDup) ∧
          e1.day = e2.day ∧ e1.time = e2.time ∧ ¬ e1.cls = e2.cls ∧
          d = descOf e1 e2) := by
  intro hAll
  obtain ⟨e1, e2, hsub, _, _, hne, _⟩ := hAll
    "Monday 9:00 AM: Teaching both O-Level Section A and O-Level Section A" (by decide)
  have hent : entriesFor "Muhammad Hammad" ctxDup = [eDup, eDup] := by decide
  rw [hent] at hsub
  have heq := hsub.eq_of_length rfl
  injection heq with hA hrest
  injection hrest with hB _
  subst hA
  subst hB
  exact hne rfl

/-- C6 (amended): every description the detector reports comes from an
ordered pair of extracted entries sharing identical (day, time) — the class
labels need not differ (a duplicated entry pairs with itself) — and the
description list is deduplicated by exact string, so it contains no
repeats. -/
theorem conflict_descs_provenance (teacherName context : String) :
    (conflictDescs teacherName context).Nodup ∧
    ∀ d ∈ conflictDescs teacherName context,
      ∃ e1 e2 : SEntry, [e1, e2].Sublist (entriesFor teacherName context) ∧
        e1.day = e2.day ∧ e1.time = e2.time ∧ d = descOf e1 e2 := by
  constructor
  · exact loop1_nodup _ [] List.nodup_nil
  · intro d hd
    rcases loop1_mem (entriesFor teacherName context) [] d hd with h | h
    · exact absurd h (List.not_mem_nil d)
    · exact h

/-- Witness for `conflict_descs_provenance` at the spec's two-line
context. -/
theorem conflict_descs_provenance_witness :
    (conflictDescs "Muhammad Hammad" ctxC3).Nodup ∧
    (∃ e1 e2 : SEntry, [e1, e2].Sublist (entriesFor "Muhammad Hammad" ctxC3) ∧
      e1.day = e2.day ∧ e1.time = e2.time ∧
      "Monday 9:00 AM: Teaching both O-Level Section A and O-Level Section B"
        = descOf e1 e2) :=
  ⟨(conflict_descs_provenance "Muhammad Hammad" ctxC3).1,
   (conflict_descs_provenance "Muhammad Hammad" ctxC3).2 _ (by decide)⟩

/-- C7 (counterexample): on a line holding the range
`9:00 AM - 10:00 AM`, the extraction returns the start time `9:00 AM` as
the time component, not the full start-end range text, so the claim that
the time component is the full range is false. -/
theorem extract_time_window_range_cex :
    extractTimeWindow "Monday 9:00 AM - 10:00 AM: Algebra"
      = some ("Monday", "9:00 AM") ∧
    ("9:00 AM" : String) ≠ "9:00 AM - 10:00 AM" :=
  ⟨by decide, by decide⟩

/-- C7 (amended): the extraction is characterised exactly against the
pattern "day name, whitespace, start time in `H:MM AM/PM` form, a dash or
colon (with optional surrounding whitespace), end time". Soundness: any
returned pair is a verbatim day-word and *start-time* text (a single time,
not the full range) occurring in the line in that pattern. Completeness:
every line containing the pattern anywhere yields a result. Together these
give the none-case in full: a line with no such match returns none, since a
returned pair would exhibit a match. -/
theorem extract_time_window_contract :
    (∀ (line day time : String), extractTimeWindow line = some (day, time) →
      day.data ≠ [] ∧ (∀ c ∈ day.data, isWordChar c = true) ∧
      IsTimeText time.data ∧
      ∃ pre sp1 sp2 sep sp3 t2 rest,
        line.data = pre ++ (day.data ++ (sp1 ++ (time.data ++ (sp2 ++ sep ::
          (sp3 ++ (t2 ++ rest)))))) ∧
        sp1 ≠ [] ∧ (∀ c ∈ sp1, isPySpace c = true) ∧
        (∀ c ∈ sp2, isPySpace c = true) ∧ (sep = '-' ∨ sep = ':') ∧
        (∀ c ∈ sp3, isPySpace c = true) ∧ IsTimeText t2) ∧
    (∀ (line : String) (pre day sp1 t1 sp2 sp3 t2 rest : List Char) (sep : Char),
      line.data = pre ++ (day ++ (sp1 ++ (t1 ++ (sp2 ++ sep ::
        (sp3 ++ (t2 ++ rest)))))) →
      day ≠ [] → (∀ c ∈ day, isWordChar c = true) →
      sp1 ≠ [] → (∀ c ∈ sp1, isPySpace c = true) →
      IsTimeText t1 → (∀ c ∈ sp2, isPySpace c = true) →
      (sep = '-' ∨ sep = ':') → (∀ c ∈ sp3, isPySpace c = true) →
      IsTimeText t2 →
      (extractTimeWindow line).isSome = true) := by
  constructor
  · intro line day time h
    obtain ⟨pre, suf, hsplit, hms⟩ := searchSched_sound h
    obtain ⟨hne, hword, htime, sp1, sp2, sep, sp3, t2, rest, hsuf, hrest⟩ :=
      matchSchedAt_sound hms
    exact ⟨hne, hword, htime, pre, sp1, sp2, sep, sp3, t2, rest,
      by rw [hsplit, hsuf], hrest⟩
  · intro line pre day sp1 t1 sp2 sp3 t2 rest sep hline hday hdayW hsp1 hsp1S ht1
      hsp2 hsep hsp3 ht2
    have hm := matchSchedAt_complete rest hday hdayW hsp1 hsp1S ht1 hsp2 hsep hsp3 ht2
    have hres := searchSched_isSome_of_suffix pre hm
    show (searchSched line.data).isSome = true
    rw [hline]
    exact hres

/-- Witness for `extract_time_window_contract`: the soundness half applied
at the dash-separated example line, and the completeness half applied at a
colon-separated line with a prefix before the day word. -/
theorem extract_time_window_contract_witness :
    (("Monday" : String).data ≠ [] ∧
      (∀ c ∈ ("Monday" : String).data, isWordChar c = true) ∧
      IsTimeText ("9:00 AM" : String).data ∧
      ∃ pre sp1 sp2 sep sp3 t2 rest,
        ("Monday 9:00 AM - 10:00 AM: Algebra" : String).data
          = pre ++ (("Monday" : String).data ++ (sp1 ++
            (("9:00 AM" : String).data ++ (sp2 ++ sep ::
              (sp3 ++ (t2 ++ rest)))))) ∧
        sp1 ≠ [] ∧ (∀ c ∈ sp1, isPySpace c = true) ∧
        (∀ c ∈ sp2, isPySpace c = true) ∧ (sep = '-' ∨ sep = ':') ∧
        (∀ c ∈ sp3, isPySpace c = true) ∧ IsTimeText t2) ∧
    (extractTimeWindow "On Monday 9:00 AM: 10:00 AM meet").isSome = true :=
  ⟨extract_time_window_contract.1 "Monday 9:00 AM - 10:00 AM: Algebra"
      "Monday" "9:00 AM" (by decide),
   extract_time_window_contract.2 "On Monday 9:00 AM: 10:00 AM meet"
      "On ".data "Monday".data [' '] "9:00 AM".data [] [' '] "10:00 AM".data
      " meet".data ':' (by decide) (by decide) (by decide) (by decide) (by decide)
      ⟨['9'], '0', '0', [' '], 'A', Or.inl ⟨'9', rfl, by decide⟩, by decide,
        by decide, by decide, by decide, Or.inl rfl, by decide⟩
      (by decide) (Or.inr rfl) (by decide)
      ⟨['1', '0'], '0', '0', [' '], 'A', Or.inr ⟨'1', '0', rfl, by decide, by decide⟩,
        by decide, by decide, by decide, by decide, Or.inl rfl, by decide⟩⟩

/-! ## Theorems: agent constructor and invocation -/

/-- C1 (code evaluation): the constructor's default iteration ceiling is 10,
but `create_react_agent` receives only the LLM and the tools — two
constructors differing solely in `max_iterations` build identical
executors, so the configured ceiling provably never reaches the loop — and
when the library executor raises (e.g. its own recursion limit is exhausted
by a generator stub that always requests a tool call), `invoke` returns the
generic error answer, not the last tool observation. -/
theorem max_iterations_not_wired :
    agentDefaults.maxIterations = 10 ∧
    (∀ (settingsModel : String) (args : AgentInitArgs) (n : Nat),
      buildReactAgent settingsModel { args with maxIterations := n }
        = buildReactAgent settingsModel args) ∧
    (∀ e : String, invokeAgent (.error e)
      = ⟨"I encountered an error while processing your question: " ++ e, []⟩) :=
  ⟨rfl, fun _ _ _ => rfl, fun _ => rfl⟩

end EduDoc
